import Mathlib

/-!
Verification of the real-time communication and lifecycle layer of the
`beat-detector` repository (PipeWire + aubio beat detection tool).

Shallow embedding of:
* the SPSC event ring buffer (`src/modules/beat/detector/impl.cpp`,
  push in `pw_stream_events.process`, drain in the `pw_loop_add_event`
  callback);
* the BPM rolling buffer and `averageBpm`;
* the stream lifecycle / shutdown flag machine (`stop`, `signalHandler`,
  `state_changed`);
* SPA buffer validation (`src/modules/audio.blocks.spa.ixx`) and the
  `BufferView::BlockRange` iterator (`audio.blocks:core`);
* command-line parsing and exit codes (`src/src/main.cpp`);
* the CSV log format.

Machine integers (`std::size_t`, `std::uint32_t`) are modelled as `Nat`
with explicit `% 2^w` / bound checks where the source checks them;
`float` payload values are modelled as exact rationals (every claim
under test only involves exactly representable values and exact
operations).
-/

namespace BeatSpec

/-! ### SPSC event ring buffer

From `DetectorState` in `impl.cpp`:
`static constexpr std::size_t kEventCap = 1024U;`
`std::array<Event, kEventCap> events {};`
`std::atomic<std::size_t> ev_head {0U};  // write index (Real-time)`
`std::atomic<std::size_t> ev_tail {0U};  // read index (mainloop)`

The queue operations are generic in the slot payload: the push/drain
code never inspects the `Event` fields.  The claims are settled on the
sequential (interleaving) semantics of the two loops.
-/

def kEventCap : Nat := 1024

structure Spsc (α : Type) where
  events : Nat → α
  ev_head : Nat
  ev_tail : Nat

/-- Initial queue state: zero-initialised slot array, both indices `0`. -/
def Spsc.empty (d : α) : Spsc α :=
  { events := fun _ => d, ev_head := 0, ev_tail := 0 }

/-- The producer-side push, from `pw_stream_events.process`
(impl.cpp lines 466–497):

```
const auto head = ev_head.load(relaxed);
const auto tail = ev_tail.load(acquire);
auto next_head = (head + 1) % kEventCap;
if (next_head == tail)                 // Drop the oldest if full
    ev_tail.store((tail + 1) % kEventCap, release);
events[head] = e;
ev_head.store(next_head, release);
```
-/
def Spsc.tryPush (s : Spsc α) (e : α) : Spsc α :=
  { events := fun i => if i = s.ev_head then e else s.events i
  , ev_head := (s.ev_head + 1) % kEventCap
  , ev_tail :=
      if (s.ev_head + 1) % kEventCap = s.ev_tail
      then (s.ev_tail + 1) % kEventCap else s.ev_tail }

/-- The consumer-side drain loop, from the `pw_loop_add_event` callback
(impl.cpp lines 572–631), with an explicit fuel argument for
termination (fuel `kEventCap` is enough for any in-bounds state):

```
for (;;) {
    const auto tail = ev_tail.load(acquire);
    const auto head = ev_head.load(acquire);
    if (tail == head) break;           // Break if empty
    const auto event = events[tail];
    ev_tail.store((tail + 1) % kEventCap, release);
    ... consume event ...
}
```
-/
def Spsc.drainLoop : Nat → Spsc α → List α × Spsc α
  | 0, s => ([], s)
  | fuel + 1, s =>
    if s.ev_tail = s.ev_head then ([], s)
    else
      let e := s.events s.ev_tail
      let s' : Spsc α := { s with ev_tail := (s.ev_tail + 1) % kEventCap }
      let r := Spsc.drainLoop fuel s'
      (e :: r.1, r.2)

def Spsc.drainAll (s : Spsc α) : List α × Spsc α :=
  Spsc.drainLoop kEventCap s

/-- Both indices in bounds (always holds for reachable states). -/
def Spsc.Bounded (s : Spsc α) : Prop :=
  s.ev_head < kEventCap ∧ s.ev_tail < kEventCap

/-- Number of pending (unconsumed) events. -/
def Spsc.pend (s : Spsc α) : Nat :=
  (s.ev_head + kEventCap - s.ev_tail) % kEventCap

/-- The pending events, oldest first: slots `tail, tail+1, …, head-1` (mod `N`). -/
def Spsc.pendList (s : Spsc α) : List α :=
  (List.range s.pend).map (fun i => s.events ((s.ev_tail + i) % kEventCap))

/-- The queue is full exactly when advancing `head` would make it equal `tail`. -/
def Spsc.IsFull (s : Spsc α) : Prop :=
  (s.ev_head + 1) % kEventCap = s.ev_tail

/-- Push a whole list, oldest first (one `process` detection per element). -/
def Spsc.pushAll (s : Spsc α) (l : List α) : Spsc α :=
  l.foldl Spsc.tryPush s

/-! ### BPM rolling buffer

From `DetectorState` in `impl.cpp`:
`static constexpr std::size_t kBPMCapacity = 10U;` and
`struct BPMBuffer { std::array<float, kBPMCapacity> values {}; std::size_t count {0U}; std::size_t head {0U}; };`

Float samples are modelled as exact rationals; all claims under test
involve only exactly representable values and exact operations.
-/

def kBPMCapacity : Nat := 10

structure BPMBuffer where
  values : Nat → ℚ
  count : Nat
  head : Nat

def BPMBuffer.empty : BPMBuffer :=
  { values := fun _ => 0, count := 0, head := 0 }

/-- Recording one BPM sample, from `pw_stream_events.process`
(impl.cpp lines 451–456):

```
bpm_buffer.values[bpm_buffer.head] = bpm_now;
bpm_buffer.head  = (bpm_buffer.head + 1) % kBPMCapacity;
bpm_buffer.count = std::min(bpm_buffer.count + 1, kBPMCapacity);
```
-/
def BPMBuffer.record (b : BPMBuffer) (v : ℚ) : BPMBuffer :=
  { values := fun i => if i = b.head then v else b.values i
  , head := (b.head + 1) % kBPMCapacity
  , count := min (b.count + 1) kBPMCapacity }

/-- The index view that `averageBpm` sums over (impl.cpp lines 264–270):
`first_index = (head + capacity - count) % capacity` and element `index`
is `values[(first_index + index) % capacity]`. -/
def BPMBuffer.window (b : BPMBuffer) : List ℚ :=
  (List.range b.count).map
    (fun index =>
      b.values (((b.head + kBPMCapacity - b.count) % kBPMCapacity + index) % kBPMCapacity))

/-- `averageBpm` (impl.cpp lines 257–275): `0` when `count == 0`, else
the accumulated sum over the window divided by `count`. -/
def averageBpm (b : BPMBuffer) : ℚ :=
  if b.count = 0 then 0 else b.window.sum / (b.count : ℚ)

/-- Record a whole list of samples, oldest first. -/
def BPMBuffer.recordAll (b : BPMBuffer) (l : List ℚ) : BPMBuffer :=
  l.foldl BPMBuffer.record b

/-- Index bounds (hold for every reachable buffer state). -/
def BPMBuffer.Wf (b : BPMBuffer) : Prop :=
  b.head < kBPMCapacity ∧ b.count ≤ kBPMCapacity

/-! ### Stream lifecycle controller and shutdown flags

Models the fields of `DetectorState` / `BeatDetector` that the
lifecycle operations touch: `quit` and `stopping` (atomic booleans),
the stream handle (non-null for the whole run), `pw_stream_set_active`
requests, `pw_main_loop_quit` requests, and the number of
`pw_stream_disconnect` calls made.
-/

/-- PipeWire stream states as reported to `state_changed`. -/
inductive StreamState
  | Unconnected
  | Connecting
  | Paused
  | Streaming
  | Error
deriving DecidableEq

structure LifeState where
  quit : Bool
  stopping : Bool
  hasInstance : Bool
  hasStream : Bool
  streamActive : Bool
  loopQuitRequested : Bool
  disconnects : Nat
deriving DecidableEq

/-- State at the start of `run()` (impl.cpp line 642 resets `quit` to
false before entering the main loop; the stream was connected by
`initialize`, `DetectorState::instance` was set by the constructor). -/
def LifeState.init : LifeState :=
  { quit := false, stopping := false, hasInstance := true, hasStream := true
  , streamActive := true, loopQuitRequested := false, disconnects := 0 }

/-- `BeatDetector::stop` (impl.cpp lines 660–670):

```
DetectorState::quit.store(true, relaxed);
if (current_state.stream != nullptr) {
    current_state.stopping.store(true, relaxed);
    pw_stream_set_active(current_state.stream.get(), false);
}
```
-/
def LifeState.stop (s : LifeState) : LifeState :=
  let s1 := { s with quit := true }
  if s1.hasStream then { s1 with stopping := true, streamActive := false } else s1

/-- `BeatDetector::signalHandler` (impl.cpp lines 672–677): if the
process-wide instance pointer is set, store `quit := true`; nothing
else. -/
def LifeState.signal (s : LifeState) : LifeState :=
  if s.hasInstance then { s with quit := true } else s

/-- `pw_stream_events.state_changed` (impl.cpp lines 349–378):
on `Error`, request main-loop termination; on `Paused`, if `stopping`
is set and the stream is non-null, call `pw_stream_disconnect`. -/
def LifeState.notify (s : LifeState) (st : StreamState) : LifeState :=
  let s1 := if st = StreamState.Error then { s with loopQuitRequested := true } else s
  if st = StreamState.Paused then
    (if s1.stopping then
       (if s1.hasStream then { s1 with disconnects := s1.disconnects + 1 } else s1)
     else s1)
  else s1

/-- One poll iteration of the `quit_monitor` thread (impl.cpp lines
154–165): if `quit` is observed set, request main-loop termination. -/
def LifeState.monitorPoll (s : LifeState) : LifeState :=
  if s.quit then { s with loopQuitRequested := true } else s

/-- The operations reachable during a single run.  `processBlock`
(the real-time `process` callback) and `drainEvents` (the mainloop
drain callback) only read `quit` and touch the event queue / BPM
buffer / run totals; they write none of the `LifeState` fields, so on
this state they act as the identity. -/
inductive Act
  | stopCall
  | signal
  | notify (st : StreamState)
  | monitorPoll
  | processBlock
  | drainEvents
deriving DecidableEq

def stepAct (a : Act) (s : LifeState) : LifeState :=
  match a with
  | Act.stopCall => s.stop
  | Act.signal => s.signal
  | Act.notify st => s.notify st
  | Act.monitorPoll => s.monitorPoll
  | Act.processBlock => s
  | Act.drainEvents => s

def runTrace (s : LifeState) (l : List Act) : LifeState :=
  l.foldl (fun s a => stepAct a s) s

/-- Transport consistency: PipeWire emits a `paused` notification only
while the stream is still connected — after `pw_stream_disconnect` the
stream is in `unconnected` (terminal within a run; the spec lifecycle
§4.3 likewise makes `Disconnected` terminal), so no `paused`
notification is delivered once a disconnect has been issued. -/
def transportOK : LifeState → List Act → Bool
  | _, [] => true
  | s, a :: rest =>
    (if a = Act.notify StreamState.Paused then s.disconnects == 0 else true)
      && transportOK (stepAct a s) rest

/-! ### audio_blocks: BufferView and SPA validation

From `src/unnamed/part_000` (module `audio.blocks:core`) and
`src/modules/audio.blocks.spa.ixx` (module `audio.blocks:spa`).
The sample type in the program is `float` (`sizeof(float) == 4`);
sample values are modelled as exact rationals, the raw memory behind
`datas[0].data` as the list of floats it holds.
-/

inductive ViewError
  | NullData
  | ZeroBlockSize
  | MisalignedBytes
  | UnsupportedStride
deriving DecidableEq

/-- `audio_blocks::toString` (part_000 lines 22–33). -/
def ViewError.label : ViewError → String
  | ViewError.NullData => "null data pointer"
  | ViewError.ZeroBlockSize => "block size must be > 0"
  | ViewError.MisalignedBytes => "byte size is not a multiple of sample size"
  | ViewError.UnsupportedStride => "unsupported stride/layout"

/-- `audio_blocks::BufferView<Sample>`: a span of samples plus the
requested block size (part_000 lines 35–127). -/
structure BufferView (α : Type) where
  samples : List α
  blockSize : Nat
deriving DecidableEq

/-- The `BlockRange::end()` offset: `usable = (all.size() / block) * block`
(part_000 line 106). -/
def BufferView.usable (v : BufferView α) : Nat :=
  v.samples.length / v.blockSize * v.blockSize

/-- The `BlockRange` iteration (part_000 lines 64–113): starting at
offset `0`, while `offset ≠ usable`, yield `all.subspan(offset, block)`
and step `offset += block`.  Fuel-based; fuel `all.length + 1` is
enough whenever `block > 0`. -/
def blockIter (all : List α) (block usable : Nat) : Nat → Nat → List (List α)
  | 0, _ => []
  | fuel + 1, offset =>
    if offset = usable then []
    else ((all.drop offset).take block) :: blockIter all block usable fuel (offset + block)

/-- `BufferView::blocks()` as the list of blocks the range iteration
yields. -/
def BufferView.blocks (v : BufferView α) : List (List α) :=
  blockIter v.samples v.blockSize v.usable (v.samples.length + 1) 0

def sizeofFloat : Nat := 4

/-- `audio_blocks::makeBufferViewFromBytes<float>` (part_000 lines
143–166): `data = none` models a null pointer, `mem` the float contents
of the pointed-to memory. -/
def makeBufferViewFromBytes (data : Option (List ℚ)) (byte_size block_size_samples : Nat) :
    Except ViewError (BufferView ℚ) :=
  match data with
  | none => Except.error ViewError.NullData
  | some mem =>
    if block_size_samples = 0 then Except.error ViewError.ZeroBlockSize
    else if byte_size % sizeofFloat ≠ 0 then Except.error ViewError.MisalignedBytes
    else Except.ok { samples := mem.take (byte_size / sizeofFloat)
                   , blockSize := block_size_samples }

structure SpaChunk where
  size : Nat
  stride : Nat
deriving DecidableEq

/-- `spa_buffer.datas[0]`: the data pointer (with its float contents
when non-null) and the chunk pointer. -/
structure SpaData where
  dataMem : Option (List ℚ)
  chunk : Option SpaChunk

/-- `audio_blocks::detail::spaDataPtr` (spa.ixx lines 12–15). -/
def spaDataPtr : Option SpaData → Option (List ℚ)
  | none => none
  | some b => b.dataMem

/-- `audio_blocks::detail::spaSizeBytes` (spa.ixx lines 17–23). -/
def spaSizeBytes : Option SpaData → Nat
  | none => 0
  | some b =>
    match b.chunk with
    | none => 0
    | some c => c.size

/-- `audio_blocks::detail::spaStrideBytes` (spa.ixx lines 25–33). -/
def spaStrideBytes (buffer : Option SpaData) (default_stride : Nat) : Nat :=
  match buffer with
  | none => 0
  | some b =>
    match b.chunk with
    | none => 0
    | some c => if c.stride ≠ 0 then c.stride else default_stride

/-- `makeBufferViewFromSpaMonoF32` (spa.ixx lines 37–62), checks in
source order: null data, zero block size, stride ≠ sizeof(float),
byte count not divisible by sizeof(float). -/
def makeBufferViewFromSpaMonoF32 (buffer : Option SpaData) (block_size_samples : Nat) :
    Except ViewError (BufferView ℚ) :=
  if spaDataPtr buffer = none then Except.error ViewError.NullData
  else if block_size_samples = 0 then Except.error ViewError.ZeroBlockSize
  else if spaStrideBytes buffer sizeofFloat ≠ sizeofFloat then
    Except.error ViewError.UnsupportedStride
  else if spaSizeBytes buffer % sizeofFloat ≠ 0 then Except.error ViewError.MisalignedBytes
  else makeBufferViewFromBytes (spaDataPtr buffer) (spaSizeBytes buffer) block_size_samples

/-! ### Events, the real-time producer body, and the drain/log loop -/

/-- `DetectorState::Event` (impl.cpp lines 109–115). -/
structure Event where
  is_beat : Bool
  is_onset : Bool
  bpm : ℚ
  pitch_hz : ℚ
  process_ms : ℚ
deriving DecidableEq

/-- The per-block analysis outcomes delivered by aubio (external
inputs to the `process` callback body). -/
structure BlockDetect where
  is_beat : Bool
  is_onset : Bool
  bpm_meas : ℚ
  pitch_meas : ℚ
deriving DecidableEq

/-- The producer-side state the `process` loop body mutates. -/
structure ProdState where
  last_bpm : ℚ
  total_beats : Nat
  total_onsets : Nat
  bpm : BPMBuffer
  queue : Spsc Event

def ProdState.init : ProdState :=
  { last_bpm := 0, total_beats := 0, total_onsets := 0
  , bpm := BPMBuffer.empty
  , queue := Spsc.empty { is_beat := false, is_onset := false, bpm := 0, pitch_hz := 0, process_ms := 0 } }

/-- One iteration of the per-block loop in `process` (impl.cpp lines
414–498): pitch is `0.0` unless pitch detection is enabled; `bpm_now`
starts at `last_bpm` and is overwritten on a beat; the BPM window and
counters are updated; an `Event` is pushed iff a beat or onset was
produced, with `process_ms = 0.0` (the source comment: "this is filled
later"). -/
def processDetection (pitch_enabled : Bool) (st : ProdState) (d : BlockDetect) : ProdState :=
  let pitch_hz : ℚ := if pitch_enabled then d.pitch_meas else 0
  let bpm_now : ℚ := if d.is_beat then d.bpm_meas else st.last_bpm
  let st1 : ProdState :=
    if d.is_beat then
      { st with
          total_beats := st.total_beats + 1
          last_bpm := bpm_now
          bpm := st.bpm.record bpm_now }
    else st
  let st2 : ProdState :=
    if d.is_onset then { st1 with total_onsets := st1.total_onsets + 1 } else st1
  if d.is_beat || d.is_onset then
    { st2 with
        queue := st2.queue.tryPush
          { is_beat := d.is_beat, is_onset := d.is_onset, bpm := bpm_now
          , pitch_hz := pitch_hz, process_ms := 0 } }
  else st2

def processDetections (pitch_enabled : Bool) (st : ProdState) (l : List BlockDetect) : ProdState :=
  l.foldl (processDetection pitch_enabled) st

/-- Specification device: the sequence of events the producer pushes
for a given detection sequence, threading `last_bpm` the same way the
loop body does. -/
def producedEvents (pitch_enabled : Bool) (last_bpm : ℚ) : List BlockDetect → List Event
  | [] => []
  | d :: rest =>
    let bpm_now : ℚ := if d.is_beat then d.bpm_meas else last_bpm
    let ev : Event :=
      { is_beat := d.is_beat, is_onset := d.is_onset, bpm := bpm_now
      , pitch_hz := if pitch_enabled then d.pitch_meas else 0, process_ms := 0 }
    if d.is_beat || d.is_onset then ev :: producedEvents pitch_enabled bpm_now rest
    else producedEvents pitch_enabled bpm_now rest

/-- A CSV log line as the drain callback formats it (impl.cpp lines
614–628): `"{:%T}.{:03},{:.1f},{},{:.3f},"` applied to the wall-clock
time, epoch milliseconds mod 1000, `is_beat ? bpm : 0.0f`,
`is_onset ? 1 : 0`, and `pitch_hz`; the trailing comma leaves the
`ProcessTime(ms)` column empty. -/
structure LogLine where
  timestamp : String
  millis : Nat
  bpmField : ℚ
  onsetField : Nat
  pitchField : ℚ
deriving DecidableEq

def logLineFor (ts : String) (nowMs : Nat) (e : Event) : LogLine :=
  { timestamp := ts
  , millis := nowMs % 1000
  , bpmField := if e.is_beat then e.bpm else 0
  , onsetField := if e.is_onset then 1 else 0
  , pitchField := e.pitch_hz }

/-- The drain loop (impl.cpp lines 579–629) with its logging branch:
a line is written iff `log_enabled && log.is_open() && (event.is_beat
|| event.is_onset)`. -/
def drainLogLoop (log_enabled log_open : Bool) (ts : String) (nowMs : Nat) :
    Nat → Spsc Event → List LogLine × Spsc Event
  | 0, s => ([], s)
  | fuel + 1, s =>
    if s.ev_tail = s.ev_head then ([], s)
    else
      let e := s.events s.ev_tail
      let s' : Spsc Event := { s with ev_tail := (s.ev_tail + 1) % kEventCap }
      let r := drainLogLoop log_enabled log_open ts nowMs fuel s'
      (if log_enabled && log_open && (e.is_beat || e.is_onset)
       then logLineFor ts nowMs e :: r.1 else r.1, r.2)

def drainLogAll (log_enabled log_open : Bool) (ts : String) (nowMs : Nat)
    (s : Spsc Event) : List LogLine × Spsc Event :=
  drainLogLoop log_enabled log_open ts nowMs kEventCap s

/-- The per-event effect of the drain loop's logging branch, as an
optional line. -/
def logFilter (log_enabled log_open : Bool) (ts : String) (nowMs : Nat)
    (e : Event) : Option LogLine :=
  if log_enabled && log_open && (e.is_beat || e.is_onset)
  then some (logLineFor ts nowMs e) else none

/-- The CSV header line (impl.cpp line 295). -/
def logHeaderLine : String := "# Timestamp,BPM,Onset,Pitch(Hz),ProcessTime(ms)"

/-- The lines written when the log is opened (impl.cpp lines 294–295):
a dated comment line, then the CSV header. -/
def logOpenLines (dateStamp : String) : List String :=
  ["# Beat Detection Log - " ++ dateStamp, logHeaderLine]

/-! ### Per-block SPA buffer handling in `process` (impl.cpp 502–514) -/

structure BlockOutcome where
  eventsProduced : List Event
  rejectionLog : Option String
  fatal : Bool
deriving DecidableEq

/-- The per-view loop: one analysis call per block of the view; the
analysis function returns the pushed event, if any, for a block. -/
def processView (analysis : List ℚ → Option Event) (v : BufferView ℚ) : List Event :=
  v.blocks.filterMap analysis

/-- `makeBufferViewFromSpaMonoF32(...).and_then(process_view).or_else(log)`
(impl.cpp lines 502–514): on a validation error the block is skipped
(no events), the labelled reason is printed to stderr, and the result
is discarded (`[[maybe_unused]]`) — the callback returns normally, so
the failure is never fatal. -/
def processSpaBuffer (analysis : List ℚ → Option Event) (buffer : Option SpaData)
    (block : Nat) : BlockOutcome :=
  match makeBufferViewFromSpaMonoF32 buffer block with
  | Except.ok v =>
    { eventsProduced := processView analysis v, rejectionLog := none, fatal := false }
  | Except.error e =>
    { eventsProduced := [], rejectionLog := some e.label, fatal := false }

/-! ### Command-line parsing and exit codes (src/src/main.cpp) -/

def kDefaultBufferSize : Nat := 512
def kMinBufferSize : Nat := 64
def kMaxBufferSize : Nat := 8192

/-- `std::numeric_limits<std::uint32_t>::max()`. -/
def uint32Max : Nat := 4294967295

structure Options where
  buffer_size : Nat
  logging : Bool
  stats : Bool
  pitch : Bool
  visual : Bool
deriving DecidableEq

def Options.default : Options :=
  { buffer_size := kDefaultBufferSize, logging := true, stats := true
  , pitch := false, visual := true }

inductive ParseErrKind
  | Help
  | Invalid
deriving DecidableEq

structure ParseError where
  kind : ParseErrKind
  message : String
deriving DecidableEq

/-- The digit loop of `detail::parseU32` (main.cpp lines 44–70) with
its overflow guard (`max/10` and `max%10`); returns `(0, some msg)` on
failure, `(value, none)` on success. -/
def parseU32Loop (acc : Nat) : List Char → Nat × Option String
  | [] => (acc, none)
  | c :: rest =>
    if ¬ c.isDigit then (0, some "nondigit")
    else
      let digit := c.toNat - 48
      if acc > uint32Max / 10 ∨ (acc = uint32Max / 10 ∧ digit > uint32Max % 10) then
        (0, some "nondigit")
      else parseU32Loop (acc * 10 + digit) rest

def parseU32 (input : List Char) : Nat × Option String :=
  if input = [] then (0, some "empty") else parseU32Loop 0 input

/-- The argument loop of `beat_detector::parseArgs` (main.cpp lines
95–147), with arguments as character lists. -/
def parseArgsLoop (saw_positional : Bool) (opts : Options) :
    List (List Char) → Except ParseError Options
  | [] => Except.ok opts
  | arg :: rest =>
    if arg = "--help".data ∨ arg = "-h".data then
      Except.error { kind := ParseErrKind.Help, message := "" }
    else if arg ≠ [] ∧ arg.head? ≠ some (Char.ofNat 45) then
      if saw_positional then
        Except.error { kind := ParseErrKind.Invalid
                     , message := "Too many positional arguments (only buffer_size is allowed)/" }
      else
        match parseU32 arg with
        | (_, some _) =>
          Except.error { kind := ParseErrKind.Invalid
                       , message := "buffer_size must be a base-10 unsigned integer" }
        | (v, none) =>
          if v < kMinBufferSize ∨ v > kMaxBufferSize then
            Except.error { kind := ParseErrKind.Invalid
                         , message := "buffer_size out of range [64, 8192]" }
          else parseArgsLoop true { opts with buffer_size := v } rest
    else if arg = "--no-log".data then
      parseArgsLoop saw_positional { opts with logging := false } rest
    else if arg = "--no-stats".data then
      parseArgsLoop saw_positional { opts with stats := false } rest
    else if arg = "--pitch".data then
      parseArgsLoop saw_positional { opts with pitch := true } rest
    else if arg = "--no-visual".data then
      parseArgsLoop saw_positional { opts with visual := false } rest
    else
      Except.error { kind := ParseErrKind.Invalid, message := "Unknown option" }

/-- `beat_detector::parseArgs`: skip the program name (`args[0]`) and
run the loop with the defaulted option record. -/
def parseArgs (args : List (List Char)) : Except ParseError Options :=
  parseArgsLoop false Options.default (args.drop 1)

/-- The exit code `main` returns (main.cpp lines 150–200): `0` after
printing usage on a help request; `1` on a parse error; `1` if
`initialize()` failed; `1` if `run()` threw; else `0`. -/
def mainExitCode (args : List (List Char)) (init_ok : Bool) (run_threw : Bool) : Nat :=
  match parseArgs args with
  | Except.error e => if e.kind = ParseErrKind.Help then 0 else 1
  | Except.ok _ => if ¬ init_ok then 1 else if run_threw then 1 else 0

theorem Spsc.pend_lt (s : Spsc α) : s.pend < kEventCap := by
  have : (0 : Nat) < kEventCap := by decide
  exact Nat.mod_lt _ this

theorem Spsc.bounded_empty (d : α) : (Spsc.empty d).Bounded := by
  constructor <;> simp [Spsc.empty, kEventCap]

theorem Spsc.bounded_tryPush (s : Spsc α) (e : α) (hb : s.Bounded) :
    (s.tryPush e).Bounded := by
  unfold Spsc.tryPush Spsc.Bounded
  constructor
  · exact Nat.mod_lt _ (by decide)
  · dsimp only
    split
    · exact Nat.mod_lt _ (by decide)
    · exact hb.2

/-- Slot indices of pending events never collide with the write cursor. -/
theorem Spsc.pend_index_ne_head (s : Spsc α) (hb : s.Bounded)
    (i : Nat) (hi : i < s.pend) : (s.ev_tail + i) % kEventCap ≠ s.ev_head := by
  rcases hb with ⟨hh, ht⟩
  unfold Spsc.pend at hi
  unfold kEventCap at *
  omega

theorem Spsc.length_pendList (s : Spsc α) : s.pendList.length = s.pend := by
  simp [Spsc.pendList]

theorem Spsc.isFull_iff (s : Spsc α) (hb : s.Bounded) :
    s.IsFull ↔ s.pend = kEventCap - 1 := by
  rcases hb with ⟨hh, ht⟩
  unfold Spsc.IsFull Spsc.pend kEventCap at *
  omega

@[simp] theorem Spsc.events_tryPush (s : Spsc α) (e : α) :
    (s.tryPush e).events = fun i => if i = s.ev_head then e else s.events i := rfl

@[simp] theorem Spsc.head_tryPush (s : Spsc α) (e : α) :
    (s.tryPush e).ev_head = (s.ev_head + 1) % kEventCap := rfl

@[simp] theorem Spsc.tail_tryPush (s : Spsc α) (e : α) :
    (s.tryPush e).ev_tail =
      if (s.ev_head + 1) % kEventCap = s.ev_tail
      then (s.ev_tail + 1) % kEventCap else s.ev_tail := rfl

set_option maxRecDepth 4000 in
/-- Effect of a push on the pending-event list: append the new event,
dropping the oldest first exactly when the ring is full. -/
theorem Spsc.pendList_tryPush (s : Spsc α) (e : α) (hb : s.Bounded) :
    (s.tryPush e).pendList =
      (if s.pend = kEventCap - 1 then s.pendList.drop 1 else s.pendList) ++ [e] := by
  obtain ⟨hh, ht⟩ := hb
  by_cases hf : (s.ev_head + 1) % kEventCap = s.ev_tail
  · -- full: the producer advances the tail, the oldest slot is dropped
    have hpend : s.pend = kEventCap - 1 := by
      unfold Spsc.pend kEventCap at *; omega
    have hpend2 : (s.tryPush e).pend = kEventCap - 1 := by
      unfold Spsc.pend
      simp only [Spsc.head_tryPush, Spsc.tail_tryPush, if_pos hf]
      unfold kEventCap at *
      omega
    rw [if_pos hpend]
    unfold Spsc.pendList
    rw [hpend2, hpend]
    have hcap1 : kEventCap - 1 = (kEventCap - 2) + 1 := by decide
    conv_lhs => rw [hcap1, List.range_succ]
    conv_rhs => rw [hcap1, List.range_succ_eq_map]
    rw [List.map_append, List.map_cons, List.map_cons, List.map_nil,
      List.drop_one, List.tail_cons, List.map_map]
    congr 1
    · apply List.map_congr_left
      intro i hi
      have hi2 : i < kEventCap - 2 := List.mem_range.mp hi
      simp only [Spsc.events_tryPush, Spsc.tail_tryPush, Spsc.head_tryPush,
        if_pos hf, Function.comp]
      have hidx : ((s.ev_tail + 1) % kEventCap + i) % kEventCap
          = (s.ev_tail + Nat.succ i) % kEventCap := by
        unfold kEventCap at *; omega
      have hne : ((s.ev_tail + 1) % kEventCap + i) % kEventCap ≠ s.ev_head := by
        unfold kEventCap at *; omega
      rw [if_neg hne, hidx]
    · simp only [Spsc.events_tryPush, Spsc.tail_tryPush, Spsc.head_tryPush, if_pos hf]
      have hidx : ((s.ev_tail + 1) % kEventCap + (kEventCap - 2)) % kEventCap
          = s.ev_head := by
        unfold kEventCap at *; omega
      rw [hidx]
      simp
  · -- not full: the tail is untouched, the pending list grows by one
    have hpend : s.pend ≠ kEventCap - 1 := by
      unfold Spsc.pend kEventCap at *; omega
    have hpend2 : (s.tryPush e).pend = s.pend + 1 := by
      unfold Spsc.pend
      simp only [Spsc.head_tryPush, Spsc.tail_tryPush, if_neg hf]
      unfold kEventCap at *
      omega
    rw [if_neg hpend]
    unfold Spsc.pendList
    rw [hpend2, List.range_succ]
    simp only [List.map_append, List.map_cons, List.map_nil]
    congr 1
    · apply List.map_congr_left
      intro i hi
      have hi2 : i < s.pend := List.mem_range.mp hi
      have hne : (s.ev_tail + i) % kEventCap ≠ s.ev_head :=
        Spsc.pend_index_ne_head s ⟨hh, ht⟩ i hi2
      simp only [Spsc.events_tryPush, Spsc.tail_tryPush, Spsc.head_tryPush, if_neg hf]
      rw [if_neg hne]
    · have hidx : (s.ev_tail + s.pend) % kEventCap = s.ev_head := by
        unfold Spsc.pend kEventCap at *; omega
      simp only [Spsc.events_tryPush, Spsc.tail_tryPush, Spsc.head_tryPush,
        if_neg hf, hidx]
      simp

theorem Spsc.drainLoop_zero (s : Spsc α) : s.drainLoop 0 = ([], s) := rfl

theorem Spsc.drainLoop_succ (fuel : Nat) (s : Spsc α) :
    s.drainLoop (fuel + 1) =
      if s.ev_tail = s.ev_head then ([], s)
      else
        (s.events s.ev_tail ::
           (Spsc.drainLoop fuel { s with ev_tail := (s.ev_tail + 1) % kEventCap }).1,
         (Spsc.drainLoop fuel { s with ev_tail := (s.ev_tail + 1) % kEventCap }).2) := by
  rw [Spsc.drainLoop]

/-- Consuming one slot (advancing the tail) decrements the pending count. -/
theorem Spsc.pend_advance_tail (s : Spsc α) (hb : s.Bounded)
    (hne : s.ev_tail ≠ s.ev_head) :
    Spsc.pend { s with ev_tail := (s.ev_tail + 1) % kEventCap } = s.pend - 1 := by
  obtain ⟨hh, ht⟩ := hb
  show (s.ev_head + kEventCap - (s.ev_tail + 1) % kEventCap) % kEventCap = s.pend - 1
  unfold Spsc.pend kEventCap at *
  omega

/-- Consuming one slot splits the pending list as head :: rest. -/
theorem Spsc.pendList_advance_tail (s : Spsc α) (hb : s.Bounded)
    (hne : s.ev_tail ≠ s.ev_head) :
    s.pendList = s.events s.ev_tail ::
      Spsc.pendList { s with ev_tail := (s.ev_tail + 1) % kEventCap } := by
  obtain ⟨hh, ht⟩ := hb
  have hpos : 1 ≤ s.pend := by
    unfold Spsc.pend kEventCap at *; omega
  have hpend2 := Spsc.pend_advance_tail s ⟨hh, ht⟩ hne
  unfold Spsc.pendList
  rw [hpend2]
  have hsp : s.pend = (s.pend - 1) + 1 := by omega
  conv_lhs => rw [hsp, List.range_succ_eq_map]
  simp only [List.map_cons, List.map_map]
  have h0 : (s.ev_tail + 0) % kEventCap = s.ev_tail := by
    unfold kEventCap at *; omega
  rw [h0]
  congr 1
  apply List.map_congr_left
  intro i _
  simp only [Function.comp]
  show s.events ((s.ev_tail + Nat.succ i) % kEventCap)
      = s.events (((s.ev_tail + 1) % kEventCap + i) % kEventCap)
  have hidx : (s.ev_tail + Nat.succ i) % kEventCap
      = ((s.ev_tail + 1) % kEventCap + i) % kEventCap := by
    unfold kEventCap at *; omega
  rw [hidx]

/-- Drain correctness: with enough fuel (anything at least `pend`), the
drain loop returns exactly the pending events, oldest first, and leaves
the queue empty (`tail = head`) with slots and head untouched. -/
theorem Spsc.drainLoop_eq (fuel : Nat) (s : Spsc α) (hb : s.Bounded)
    (hfuel : s.pend ≤ fuel) :
    s.drainLoop fuel = (s.pendList, { s with ev_tail := s.ev_head }) := by
  induction fuel generalizing s with
  | zero =>
    obtain ⟨hh, ht⟩ := hb
    have hth : s.ev_tail = s.ev_head := by
      unfold Spsc.pend kEventCap at *; omega
    have hnil : s.pendList = [] := by
      have hz : s.pend = 0 := by unfold Spsc.pend kEventCap at *; omega
      simp [Spsc.pendList, hz]
    rw [hnil, Spsc.drainLoop_zero]
    cases s
    simp_all
  | succ fuel ih =>
    obtain ⟨hh, ht⟩ := hb
    rw [Spsc.drainLoop_succ]
    by_cases hth : s.ev_tail = s.ev_head
    · have hnil : s.pendList = [] := by
        have hz : s.pend = 0 := by unfold Spsc.pend kEventCap at *; omega
        simp [Spsc.pendList, hz]
      rw [if_pos hth, hnil]
      cases s
      simp_all
    · rw [if_neg hth]
      have hb2 : Spsc.Bounded { s with ev_tail := (s.ev_tail + 1) % kEventCap } :=
        ⟨hh, Nat.mod_lt _ (by decide)⟩
      have hpend2 := Spsc.pend_advance_tail s ⟨hh, ht⟩ hth
      have hpos : 1 ≤ s.pend := by
        unfold Spsc.pend kEventCap at *; omega
      have hfuel2 : Spsc.pend { s with ev_tail := (s.ev_tail + 1) % kEventCap } ≤ fuel := by
        rw [hpend2]; omega
      rw [ih _ hb2 hfuel2, Spsc.pendList_advance_tail s ⟨hh, ht⟩ hth]

theorem Spsc.drainAll_eq (s : Spsc α) (hb : s.Bounded) :
    s.drainAll = (s.pendList, { s with ev_tail := s.ev_head }) :=
  Spsc.drainLoop_eq kEventCap s hb (Nat.le_of_lt (Spsc.pend_lt s))

theorem Spsc.pushAll_append (s : Spsc α) (l : List α) (e : α) :
    s.pushAll (l ++ [e]) = (s.pushAll l).tryPush e := by
  simp [Spsc.pushAll]

set_option maxRecDepth 8000 in
/-- State reached by pushing a whole list into the empty queue:
the write cursor is `len mod N`, the read cursor trails it by at most
`N − 1` pending slots, and the pending events are the last `N − 1`
(`= kEventCap − 1 = 1023`) pushes, in push order. -/
theorem Spsc.pushAll_empty_spec (d : α) (l : List α) :
    (Spsc.pushAll (Spsc.empty d) l).ev_head = l.length % kEventCap ∧
    (Spsc.pushAll (Spsc.empty d) l).ev_tail
      = (l.length - (kEventCap - 1)) % kEventCap ∧
    (Spsc.pushAll (Spsc.empty d) l).pendList
      = l.drop (l.length - (kEventCap - 1)) := by
  induction l using List.reverseRecOn with
  | nil =>
    refine ⟨rfl, rfl, ?_⟩
    have hz : Spsc.pend (Spsc.empty d) = 0 := by
      show (0 + kEventCap - 0) % kEventCap = 0
      decide
    simp [Spsc.pushAll, Spsc.pendList, hz]
  | append_singleton l e ih =>
    obtain ⟨ihh, iht, ihp⟩ := ih
    have hb : (Spsc.pushAll (Spsc.empty d) l).Bounded := by
      constructor
      · rw [ihh]; exact Nat.mod_lt _ (by decide)
      · rw [iht]; exact Nat.mod_lt _ (by decide)
    have hpendlen : (Spsc.pushAll (Spsc.empty d) l).pend
        = l.length - (l.length - (kEventCap - 1)) := by
      rw [← Spsc.length_pendList, ihp, List.length_drop]
    rw [Spsc.pushAll_append]
    simp only [List.length_append, List.length_singleton]
    by_cases hlen : l.length < kEventCap - 1
    · have hnotfull : ¬ ((Spsc.pushAll (Spsc.empty d) l).ev_head + 1) % kEventCap
          = (Spsc.pushAll (Spsc.empty d) l).ev_tail := by
        rw [ihh, iht]
        unfold kEventCap at *
        omega
      refine ⟨?_, ?_, ?_⟩
      · rw [Spsc.head_tryPush, ihh]
        unfold kEventCap at *; omega
      · rw [Spsc.tail_tryPush, if_neg hnotfull, iht]
        unfold kEventCap at *; omega
      · rw [Spsc.pendList_tryPush _ _ hb]
        have hpne : (Spsc.pushAll (Spsc.empty d) l).pend ≠ kEventCap - 1 := by
          rw [hpendlen]; unfold kEventCap at *; omega
        rw [if_neg hpne, ihp]
        have h1 : l.length - (kEventCap - 1) = 0 := by
          unfold kEventCap at *; omega
        have h2 : l.length + 1 - (kEventCap - 1) = 0 := by
          unfold kEventCap at *; omega
        rw [h1, h2]
        simp
    · have hfull : ((Spsc.pushAll (Spsc.empty d) l).ev_head + 1) % kEventCap
          = (Spsc.pushAll (Spsc.empty d) l).ev_tail := by
        rw [ihh, iht]
        unfold kEventCap at *
        omega
      refine ⟨?_, ?_, ?_⟩
      · rw [Spsc.head_tryPush, ihh]
        unfold kEventCap at *; omega
      · rw [Spsc.tail_tryPush, if_pos hfull, iht]
        unfold kEventCap at *; omega
      · rw [Spsc.pendList_tryPush _ _ hb]
        have hpeq : (Spsc.pushAll (Spsc.empty d) l).pend = kEventCap - 1 := by
          rw [hpendlen]; unfold kEventCap at *; omega
        rw [if_pos hpeq, ihp, List.drop_drop]
        have h3 : l.length - (kEventCap - 1) + 1 = l.length + 1 - (kEventCap - 1) := by
          unfold kEventCap at *; omega
        rw [h3, List.drop_append_eq_append_drop]
        have h4 : l.length + 1 - (kEventCap - 1) - l.length = 0 := by
          unfold kEventCap at *; omega
        rw [h4]
        simp

/-- Pushing into the empty queue and then draining returns the last
`kEventCap − 1` events pushed, in push order. -/
theorem Spsc.drainAll_pushAll_empty (d : α) (l : List α) :
    (Spsc.drainAll (Spsc.pushAll (Spsc.empty d) l)).1
      = l.drop (l.length - (kEventCap - 1)) := by
  obtain ⟨ihh, iht, ihp⟩ := Spsc.pushAll_empty_spec d l
  have hb : (Spsc.pushAll (Spsc.empty d) l).Bounded := by
    constructor
    · rw [ihh]; exact Nat.mod_lt _ (by decide)
    · rw [iht]; exact Nat.mod_lt _ (by decide)
  rw [Spsc.drainAll_eq _ hb, ihp]

/-! ### Lemmas about the BPM rolling buffer -/

@[simp] theorem BPMBuffer.values_record (b : BPMBuffer) (v : ℚ) :
    (b.record v).values = fun i => if i = b.head then v else b.values i := rfl

@[simp] theorem BPMBuffer.head_record (b : BPMBuffer) (v : ℚ) :
    (b.record v).head = (b.head + 1) % kBPMCapacity := rfl

@[simp] theorem BPMBuffer.count_record (b : BPMBuffer) (v : ℚ) :
    (b.record v).count = min (b.count + 1) kBPMCapacity := rfl

theorem BPMBuffer.wf_empty : BPMBuffer.empty.Wf := by
  constructor <;> simp [BPMBuffer.empty, kBPMCapacity]

theorem BPMBuffer.wf_record (b : BPMBuffer) (v : ℚ) (_ : b.Wf) :
    (b.record v).Wf := by
  constructor
  · exact Nat.mod_lt _ (by decide)
  · rw [BPMBuffer.count_record]
    exact Nat.min_le_right _ _

theorem BPMBuffer.length_window (b : BPMBuffer) : b.window.length = b.count := by
  simp [BPMBuffer.window]

/-- Effect of a record on the value window: append the new sample,
evicting the oldest exactly when the buffer is at capacity. -/
theorem BPMBuffer.window_record (b : BPMBuffer) (v : ℚ) (hb : b.Wf) :
    (b.record v).window =
      (if b.count = kBPMCapacity then b.window.drop 1 else b.window) ++ [v] := by
  obtain ⟨hh, hc⟩ := hb
  unfold kBPMCapacity at hh hc
  by_cases hf : b.count = kBPMCapacity
  · -- at capacity: the oldest value is evicted
    have hcount2 : (b.record v).count = kBPMCapacity := by
      rw [BPMBuffer.count_record]
      unfold kBPMCapacity at *
      omega
    rw [if_pos hf]
    unfold BPMBuffer.window
    rw [hcount2, hf]
    simp only [BPMBuffer.values_record, BPMBuffer.head_record]
    unfold kBPMCapacity
    have hr1 : List.range 10 = List.range 9 ++ [9] := by decide
    have hr2 : List.range 10 = 0 :: (List.range 9).map Nat.succ := by decide
    conv_lhs => rw [hr1]
    conv_rhs => rw [hr2]
    rw [List.map_append, List.map_cons, List.map_cons, List.map_nil,
      List.drop_one, List.tail_cons, List.map_map]
    congr 1
    · apply List.map_congr_left
      intro i hi
      have hi2 : i < 9 := List.mem_range.mp hi
      simp only [Function.comp]
      have hne : ((((b.head + 1) % 10 + 10 - 10) % 10 + i) % 10) ≠ b.head := by
        omega
      rw [if_neg hne]
      congr 1
      omega
    · have hix : (((b.head + 1) % 10 + 10 - 10) % 10 + 9) % 10 = b.head := by
        omega
      rw [hix]
      simp
  · -- below capacity: the window grows by one
    have hcf : b.count < 10 := by
      unfold kBPMCapacity at hf
      omega
    have hcount2 : (b.record v).count = b.count + 1 := by
      rw [BPMBuffer.count_record]
      unfold kBPMCapacity
      omega
    rw [if_neg hf]
    unfold BPMBuffer.window
    rw [hcount2]
    simp only [BPMBuffer.values_record, BPMBuffer.head_record]
    unfold kBPMCapacity
    rw [List.range_succ]
    simp only [List.map_append, List.map_cons, List.map_nil]
    congr 1
    · apply List.map_congr_left
      intro i hi
      have hi2 : i < b.count := List.mem_range.mp hi
      have hne : ((((b.head + 1) % 10 + 10 - (b.count + 1)) % 10 + i) % 10) ≠ b.head := by
        omega
      rw [if_neg hne]
      congr 1
      omega
    · have hix : (((b.head + 1) % 10 + 10 - (b.count + 1)) % 10 + b.count) % 10 = b.head := by
        omega
      rw [hix]
      simp

/-- Buffer state after recording a whole list into the empty buffer:
`count` saturates at capacity and the window holds exactly the last
`min len 10` samples, in insertion order. -/
theorem BPMBuffer.recordAll_empty_spec (l : List ℚ) :
    (BPMBuffer.empty.recordAll l).Wf ∧
    (BPMBuffer.empty.recordAll l).count = min l.length kBPMCapacity ∧
    (BPMBuffer.empty.recordAll l).window = l.drop (l.length - kBPMCapacity) := by
  induction l using List.reverseRecOn with
  | nil =>
    refine ⟨BPMBuffer.wf_empty, rfl, ?_⟩
    simp [BPMBuffer.recordAll, BPMBuffer.window, BPMBuffer.empty]
  | append_singleton l v ih =>
    obtain ⟨ihw, ihc, ihwin⟩ := ih
    have hstep : BPMBuffer.recordAll BPMBuffer.empty (l ++ [v])
        = (BPMBuffer.recordAll BPMBuffer.empty l).record v := by
      simp [BPMBuffer.recordAll]
    rw [hstep]
    simp only [List.length_append, List.length_singleton]
    refine ⟨BPMBuffer.wf_record _ _ ihw, ?_, ?_⟩
    · rw [BPMBuffer.count_record, ihc]
      unfold kBPMCapacity
      omega
    · rw [BPMBuffer.window_record _ _ ihw, ihc, ihwin]
      by_cases hlen : l.length < kBPMCapacity
      · have h1 : ¬ min l.length kBPMCapacity = kBPMCapacity := by
          unfold kBPMCapacity at *; omega
        rw [if_neg h1]
        have h2 : l.length - kBPMCapacity = 0 := by
          unfold kBPMCapacity at *; omega
        have h3 : l.length + 1 - kBPMCapacity = 0 := by
          unfold kBPMCapacity at *; omega
        rw [h2, h3]
        simp
      · have h1 : min l.length kBPMCapacity = kBPMCapacity := by
          unfold kBPMCapacity at *; omega
        rw [if_pos h1, List.drop_drop]
        have h3 : l.length - kBPMCapacity + 1 = l.length + 1 - kBPMCapacity := by
          unfold kBPMCapacity at *; omega
        rw [h3, List.drop_append_eq_append_drop]
        have h4 : l.length + 1 - kBPMCapacity - l.length = 0 := by
          unfold kBPMCapacity at *; omega
        rw [h4]
        simp

/-! ### Claim C1: SPSC queue order and capacity -/

/-- **C1 counterexample** — the claim states that pushing `k ≤ N = 1024`
events into the empty queue and draining yields exactly those `k`
events.  At `k = 1024` this fails: the ring's full test
`next_head == tail` sacrifices one slot, so the first push is dropped
and only 1023 events are drained. -/
theorem C1_counterexample :
    (Spsc.drainAll (Spsc.pushAll (Spsc.empty 0) (List.range 1024))).1
      ≠ List.range 1024 := by
  intro h
  rw [Spsc.drainAll_pushAll_empty] at h
  have hlen := congrArg List.length h
  rw [List.length_drop, List.length_range] at hlen
  unfold kEventCap at hlen
  omega

/-- **C1** (amended): for the SPSC event queue of capacity
`kEventCap = 1024`, starting empty, pushing `k ≤ kEventCap − 1 = 1023`
events and then draining yields exactly those `k` events in push order;
pushing more than `kEventCap − 1` events and then draining yields
exactly the last `kEventCap − 1` events pushed, in push order, with no
event delivered twice or out of order (the result is a suffix of the
push sequence). -/
theorem C1_queue_order_capacity (l : List Nat) :
    (l.length ≤ kEventCap - 1 →
      (Spsc.drainAll (Spsc.pushAll (Spsc.empty 0) l)).1 = l) ∧
    (Spsc.drainAll (Spsc.pushAll (Spsc.empty 0) l)).1
      = l.drop (l.length - (kEventCap - 1)) := by
  refine ⟨?_, Spsc.drainAll_pushAll_empty 0 l⟩
  intro hk
  rw [Spsc.drainAll_pushAll_empty]
  have hz : l.length - (kEventCap - 1) = 0 := by omega
  rw [hz, List.drop_zero]

theorem C1_queue_order_capacity_witness :
    [7, 8, 9].length ≤ kEventCap - 1 ∧
    (Spsc.drainAll (Spsc.pushAll (Spsc.empty 0) [7, 8, 9])).1 = [7, 8, 9] :=
  ⟨by decide, (C1_queue_order_capacity [7, 8, 9]).1 (by decide)⟩

/-! ### Claim C2: SPSC index invariants -/

/-- **C2 counterexample** — the claim states that only the consumer
(drain callback) ever advances the tail index.  After 1023 pushes into
the empty queue the ring is full, and the producer-side push itself
advances `ev_tail` (the drop-oldest store at impl.cpp line 477). -/
theorem C2_counterexample :
    (Spsc.tryPush (Spsc.pushAll (Spsc.empty 0) (List.range 1023)) 0).ev_tail
      ≠ (Spsc.pushAll (Spsc.empty 0) (List.range 1023)).ev_tail := by
  obtain ⟨hh, ht, -⟩ := Spsc.pushAll_empty_spec 0 (List.range 1023)
  rw [List.length_range] at hh ht
  rw [Spsc.tail_tryPush, hh, ht]
  decide

/-- **C2** (amended): during every run, only the producer advances the
head index (a drain leaves it unchanged); the tail index is advanced by
the consumer loop, and additionally by the producer exactly when the
buffer is full, in which case the oldest entry is dropped; both indices
are always taken modulo `N = 1024` (they stay `< N`); and a push is a
total function that never blocks and never fails, keeping at most
`N − 1` pending entries so the capacity is never exceeded. -/
theorem C2_index_invariants (s : Spsc Nat) (e : Nat) (hb : s.Bounded) :
    (s.tryPush e).ev_head = (s.ev_head + 1) % kEventCap ∧
    (¬ s.IsFull → (s.tryPush e).ev_tail = s.ev_tail) ∧
    (s.IsFull → (s.tryPush e).ev_tail = (s.ev_tail + 1) % kEventCap) ∧
    s.drainAll.2.ev_head = s.ev_head ∧
    (s.tryPush e).Bounded ∧ s.drainAll.2.Bounded ∧
    (s.tryPush e).pend ≤ kEventCap - 1 := by
  refine ⟨Spsc.head_tryPush s e, ?_, ?_, ?_, Spsc.bounded_tryPush s e hb, ?_, ?_⟩
  · intro hnf
    have hnf2 : ¬ (s.ev_head + 1) % kEventCap = s.ev_tail := hnf
    rw [Spsc.tail_tryPush, if_neg hnf2]
  · intro hfull
    have hfull2 : (s.ev_head + 1) % kEventCap = s.ev_tail := hfull
    rw [Spsc.tail_tryPush, if_pos hfull2]
  · rw [Spsc.drainAll_eq s hb]
  · rw [Spsc.drainAll_eq s hb]
    exact ⟨hb.1, hb.1⟩
  · have hlt := Spsc.pend_lt (s.tryPush e)
    unfold kEventCap at *
    omega

theorem C2_index_invariants_witness :
    (Spsc.empty 0).Bounded ∧
    ((Spsc.empty 0).tryPush 5).ev_head = ((Spsc.empty 0).ev_head + 1) % kEventCap :=
  ⟨Spsc.bounded_empty 0, (C2_index_invariants (Spsc.empty 0) 5 (Spsc.bounded_empty 0)).1⟩

/-! ### Claim C4: BPM rolling-buffer average -/

/-- **C4**: for the BPM rolling buffer of capacity `kBPMCapacity = 10`:
`averageBpm` returns 0 when no values have been recorded, and otherwise
returns the arithmetic mean of exactly the `min (count, 10)` most
recently recorded values; recording `[60, 120, 90]` into the empty
buffer yields average `90`, and recording 11 values drops the first
recorded value from the mean. -/
theorem C4_bpm_average (l : List ℚ) :
    averageBpm BPMBuffer.empty = 0 ∧
    (l ≠ [] →
      averageBpm (BPMBuffer.empty.recordAll l)
        = (l.drop (l.length - kBPMCapacity)).sum
          / ((min l.length kBPMCapacity : Nat) : ℚ)) ∧
    averageBpm (BPMBuffer.empty.recordAll [60, 120, 90]) = 90 ∧
    (l.length = 11 →
      averageBpm (BPMBuffer.empty.recordAll l) = (l.drop 1).sum / 10) := by
  have hgen : ∀ m : List ℚ, m ≠ [] →
      averageBpm (BPMBuffer.empty.recordAll m)
        = (m.drop (m.length - kBPMCapacity)).sum
          / ((min m.length kBPMCapacity : Nat) : ℚ) := by
    intro m hm
    obtain ⟨-, hcount, hwin⟩ := BPMBuffer.recordAll_empty_spec m
    have hpos : 0 < m.length := List.length_pos.mpr hm
    have hne : (BPMBuffer.empty.recordAll m).count ≠ 0 := by
      rw [hcount]
      unfold kBPMCapacity
      omega
    unfold averageBpm
    rw [if_neg hne, hcount, hwin]
  refine ⟨by decide, hgen l, ?_, ?_⟩
  · rw [hgen [60, 120, 90] (by decide)]
    norm_num [kBPMCapacity]
  · intro h11
    rw [hgen l (by intro hnil; rw [hnil] at h11; simp at h11), h11]
    norm_num [kBPMCapacity]

theorem C4_bpm_average_witness :
    ([60, 120, 90] : List ℚ) ≠ [] ∧
    averageBpm (BPMBuffer.empty.recordAll [60, 120, 90])
      = (([60, 120, 90] : List ℚ).drop ([60, 120, 90].length - kBPMCapacity)).sum
        / ((min ([60, 120, 90] : List ℚ).length kBPMCapacity : Nat) : ℚ) :=
  ⟨by decide, (C4_bpm_average [60, 120, 90]).2.1 (by decide)⟩

/-! ### Lemmas about the lifecycle machine -/

theorem runTrace_nil (s : LifeState) : runTrace s [] = s := rfl

theorem runTrace_cons (s : LifeState) (a : Act) (l : List Act) :
    runTrace s (a :: l) = runTrace (stepAct a s) l := rfl

theorem runTrace_append (s : LifeState) (l1 l2 : List Act) :
    runTrace s (l1 ++ l2) = runTrace (runTrace s l1) l2 := by
  unfold runTrace
  simp [List.foldl_append]

theorem transportOK_cons (s : LifeState) (a : Act) (l : List Act) :
    transportOK s (a :: l)
      = ((if a = Act.notify StreamState.Paused then s.disconnects == 0 else true)
          && transportOK (stepAct a s) l) := rfl

theorem stepAct_hasStream (a : Act) (s : LifeState) :
    (stepAct a s).hasStream = s.hasStream := by
  cases a <;>
    simp only [stepAct, LifeState.stop, LifeState.signal, LifeState.notify,
      LifeState.monitorPoll] <;>
    first
      | rfl
      | (split_ifs <;> rfl)

theorem stepAct_quit_mono (a : Act) (s : LifeState) (h : s.quit = true) :
    (stepAct a s).quit = true := by
  cases a <;>
    simp only [stepAct, LifeState.stop, LifeState.signal, LifeState.notify,
      LifeState.monitorPoll] <;>
    first
      | exact h
      | (split_ifs <;> first | rfl | exact h)

theorem stepAct_stopping_mono (a : Act) (s : LifeState) (h : s.stopping = true) :
    (stepAct a s).stopping = true := by
  cases a <;>
    simp only [stepAct, LifeState.stop, LifeState.signal, LifeState.notify,
      LifeState.monitorPoll] <;>
    first
      | exact h
      | (split_ifs <;> first | rfl | exact h)

theorem runTrace_hasStream (l : List Act) (s : LifeState) :
    (runTrace s l).hasStream = s.hasStream := by
  induction l generalizing s with
  | nil => rfl
  | cons a rest ih => rw [runTrace_cons, ih, stepAct_hasStream]

theorem runTrace_quit_mono (l : List Act) (s : LifeState) (h : s.quit = true) :
    (runTrace s l).quit = true := by
  induction l generalizing s with
  | nil => exact h
  | cons a rest ih => exact ih _ (stepAct_quit_mono a s h)

theorem runTrace_stopping_mono (l : List Act) (s : LifeState) (h : s.stopping = true) :
    (runTrace s l).stopping = true := by
  induction l generalizing s with
  | nil => exact h
  | cons a rest ih => exact ih _ (stepAct_stopping_mono a s h)

/-- The only step that changes the disconnect count is a `paused`
notification received while `stopping` is set and the stream is
non-null, and it increments the count by exactly one. -/
theorem stepAct_disconnects (a : Act) (s : LifeState) :
    (stepAct a s).disconnects = s.disconnects ∨
    (a = Act.notify StreamState.Paused ∧ s.stopping = true ∧ s.hasStream = true ∧
      (stepAct a s).disconnects = s.disconnects + 1) := by
  cases a with
  | stopCall =>
    refine Or.inl ?_
    simp only [stepAct, LifeState.stop]
    split_ifs <;> rfl
  | signal =>
    refine Or.inl ?_
    simp only [stepAct, LifeState.signal]
    split_ifs <;> rfl
  | monitorPoll =>
    refine Or.inl ?_
    simp only [stepAct, LifeState.monitorPoll]
    split_ifs <;> rfl
  | processBlock => exact Or.inl rfl
  | drainEvents => exact Or.inl rfl
  | notify st =>
    cases st with
    | Paused =>
      by_cases h1 : s.stopping = true
      · by_cases h2 : s.hasStream = true
        · refine Or.inr ⟨rfl, h1, h2, ?_⟩
          simp only [stepAct, LifeState.notify]
          simp [h1, h2]
        · refine Or.inl ?_
          simp only [stepAct, LifeState.notify]
          simp [h1, h2]
      · refine Or.inl ?_
        simp only [stepAct, LifeState.notify]
        simp [h1]
    | Unconnected => exact Or.inl (by simp [stepAct, LifeState.notify])
    | Connecting => exact Or.inl (by simp [stepAct, LifeState.notify])
    | Streaming => exact Or.inl (by simp [stepAct, LifeState.notify])
    | Error => exact Or.inl (by simp [stepAct, LifeState.notify])

theorem stepAct_disconnects_le (a : Act) (s : LifeState) :
    s.disconnects ≤ (stepAct a s).disconnects := by
  rcases stepAct_disconnects a s with h | ⟨-, -, -, h⟩ <;> omega

theorem runTrace_disconnects_le (l : List Act) (s : LifeState) :
    s.disconnects ≤ (runTrace s l).disconnects := by
  induction l generalizing s with
  | nil => exact Nat.le_refl _
  | cons a rest ih =>
    rw [runTrace_cons]
    exact Nat.le_trans (stepAct_disconnects_le a s) (ih _)

/-- Along a transport-consistent trace, the disconnect count never
exceeds one. -/
theorem runTrace_disconnects_le_one (l : List Act) (s : LifeState)
    (hok : transportOK s l = true) (hle : s.disconnects ≤ 1) :
    (runTrace s l).disconnects ≤ 1 := by
  induction l generalizing s with
  | nil => exact hle
  | cons a rest ih =>
    rw [transportOK_cons, Bool.and_eq_true] at hok
    rw [runTrace_cons]
    apply ih _ hok.2
    rcases stepAct_disconnects a s with h | ⟨ha, -, -, hinc⟩
    · omega
    · subst ha
      have h0 : s.disconnects = 0 := by
        have hc := hok.1
        simp at hc
        exact hc
      omega

/-- Once `stopping` is set (and the stream is non-null), a later
`paused` notification forces at least one disconnect. -/
theorem runTrace_disconnects_ge_one (l : List Act) (s : LifeState)
    (hstop : s.stopping = true) (hstream : s.hasStream = true)
    (hmem : Act.notify StreamState.Paused ∈ l) :
    1 ≤ (runTrace s l).disconnects := by
  induction l generalizing s with
  | nil => cases hmem
  | cons a rest ih =>
    rw [runTrace_cons]
    rcases List.mem_cons.mp hmem with heq | hmem2
    · subst heq
      have hinc : (stepAct (Act.notify StreamState.Paused) s).disconnects
          = s.disconnects + 1 := by
        simp only [stepAct, LifeState.notify]
        simp [hstop, hstream]
      have hmono := runTrace_disconnects_le rest (stepAct (Act.notify StreamState.Paused) s)
      omega
    · exact ih _ (stepAct_stopping_mono a s hstop)
        (by rw [stepAct_hasStream]; exact hstream) hmem2

theorem stepAct_stopCall_disconnects (s : LifeState) :
    (stepAct Act.stopCall s).disconnects = s.disconnects := by
  simp only [stepAct, LifeState.stop]
  split_ifs <;> rfl

theorem stepAct_stopCall_stopping (s : LifeState) (h : s.hasStream = true) :
    (stepAct Act.stopCall s).stopping = true := by
  simp only [stepAct, LifeState.stop]
  simp [h]

/-! ### Claim C3: lifecycle ordering of stop / paused / disconnect -/

/-- **C3**: in every run trace that is transport-consistent
(`transportOK`: PipeWire reports no `paused` once the stream has been
disconnected) and in which `stop()` is called and the transport later
confirms `Paused`, the stream disconnect is called exactly once; a
disconnect is only ever issued by the `state_changed(Paused)` handler
with the `stopping` flag previously set — never before a `Paused`
notification is observed — and `stop()` itself never calls
disconnect. -/
theorem C3_lifecycle_disconnect (t1 t2 : List Act)
    (hok : transportOK LifeState.init (t1 ++ Act.stopCall :: t2) = true)
    (hpause : Act.notify StreamState.Paused ∈ t2) :
    (runTrace LifeState.init (t1 ++ Act.stopCall :: t2)).disconnects = 1 ∧
    (∀ s : LifeState, (stepAct Act.stopCall s).disconnects = s.disconnects) ∧
    (∀ (a : Act) (s : LifeState), (stepAct a s).disconnects ≠ s.disconnects →
      a = Act.notify StreamState.Paused ∧ s.stopping = true ∧
      (stepAct a s).disconnects = s.disconnects + 1) := by
  refine ⟨?_, stepAct_stopCall_disconnects, ?_⟩
  · have hle : (runTrace LifeState.init (t1 ++ Act.stopCall :: t2)).disconnects ≤ 1 :=
      runTrace_disconnects_le_one _ _ hok (by decide)
    have hmid : (runTrace LifeState.init t1).hasStream = true := by
      rw [runTrace_hasStream]
      rfl
    have hge : 1 ≤ (runTrace LifeState.init (t1 ++ Act.stopCall :: t2)).disconnects := by
      rw [runTrace_append, runTrace_cons]
      exact runTrace_disconnects_ge_one t2 _
        (stepAct_stopCall_stopping _ hmid)
        (by rw [stepAct_hasStream]; exact hmid) hpause
    omega
  · intro a s hne
    rcases stepAct_disconnects a s with h | ⟨ha, hstop, -, hinc⟩
    · exact absurd h hne
    · exact ⟨ha, hstop, hinc⟩

theorem C3_lifecycle_disconnect_witness :
    transportOK LifeState.init
        ([Act.notify StreamState.Streaming] ++ Act.stopCall
          :: [Act.notify StreamState.Paused]) = true ∧
    Act.notify StreamState.Paused ∈ [Act.notify StreamState.Paused] ∧
    (runTrace LifeState.init
        ([Act.notify StreamState.Streaming] ++ Act.stopCall
          :: [Act.notify StreamState.Paused])).disconnects = 1 :=
  ⟨by decide, by decide,
    (C3_lifecycle_disconnect [Act.notify StreamState.Streaming]
      [Act.notify StreamState.Paused] (by decide) (by decide)).1⟩

/-! ### Claim C5: stop() is idempotent -/

theorem LifeState.stop_stop (s : LifeState) : s.stop.stop = s.stop := by
  cases s with
  | mk q st hi hstr sa lq d => cases hstr <;> rfl

/-- **C5**: calling `stop()` any number of times ≥ 1 leaves the program
in the same observable state (quit flag, stopping flag,
transport-deactivation request — indeed the whole modelled state) as
calling it exactly once. -/
theorem C5_stop_idempotent (s : LifeState) (n : Nat) :
    LifeState.stop^[n] s.stop = s.stop := by
  induction n with
  | zero => rfl
  | succ n ih => rw [Function.iterate_succ_apply, LifeState.stop_stop, ih]

/-! ### Claim C6: shutdown flags are monotone within a run -/

/-- **C6**: during a single run, `quit` and `stopping` make only
false-to-true transitions: no reachable operation (stop, signal
handler, state_changed notification, monitor poll, process callback,
drain callback), and hence no run trace, ever resets either flag from
true back to false. -/
theorem C6_flags_monotone (a : Act) (s : LifeState) (l : List Act) :
    (s.quit = true → (stepAct a s).quit = true) ∧
    (s.stopping = true → (stepAct a s).stopping = true) ∧
    (s.quit = true → (runTrace s l).quit = true) ∧
    (s.stopping = true → (runTrace s l).stopping = true) :=
  ⟨stepAct_quit_mono a s, stepAct_stopping_mono a s,
    runTrace_quit_mono l s, runTrace_stopping_mono l s⟩

theorem C6_flags_monotone_witness :
    ({ LifeState.init with quit := true, stopping := true } : LifeState).quit = true ∧
    (stepAct Act.monitorPoll
      { LifeState.init with quit := true, stopping := true }).quit = true :=
  ⟨by decide,
    (C6_flags_monotone Act.monitorPoll
      { LifeState.init with quit := true, stopping := true } []).1 (by decide)⟩

/-! ### Lemmas about the block iterator -/

theorem blockIter_closed_form (all : List α) (block : Nat) (hb : 0 < block) (q : Nat) :
    ∀ (fuel j : Nat), q - j ≤ fuel → j ≤ q →
      blockIter all block (q * block) fuel (j * block)
        = (List.range (q - j)).map (fun i => (all.drop ((j + i) * block)).take block) := by
  intro fuel
  induction fuel with
  | zero =>
    intro j hfuel hj
    have hq : q = j := by omega
    subst hq
    simp [blockIter]
  | succ fuel ih =>
    intro j hfuel hj
    by_cases hjq : j = q
    · subst hjq
      simp [blockIter]
    · have hlt : j < q := by omega
      have hne : j * block ≠ q * block := by
        intro h
        exact hjq (Nat.eq_of_mul_eq_mul_right hb h)
      rw [blockIter]
      rw [if_neg hne]
      have hstep : j * block + block = (j + 1) * block := by ring
      rw [hstep, ih (j + 1) (by omega) (by omega)]
      have hr : q - j = (q - (j + 1)) + 1 := by omega
      rw [hr, List.range_succ_eq_map]
      simp only [List.map_cons, List.map_map]
      congr 1
      apply List.map_congr_left
      intro i _
      simp only [Function.comp, Nat.succ_eq_add_one]
      have h2 : j + 1 + i = j + (i + 1) := by omega
      rw [h2]

/-- `BufferView::blocks()` in closed form: block `i` is the `block`-long
slice starting at offset `i * block`, for `i < n / block`. -/
theorem BufferView.blocks_eq (v : BufferView α) (hb : 0 < v.blockSize) :
    v.blocks = (List.range (v.samples.length / v.blockSize)).map
      (fun i => (v.samples.drop (i * v.blockSize)).take v.blockSize) := by
  have hq : v.samples.length / v.blockSize - 0 ≤ v.samples.length + 1 := by
    have hd := Nat.div_le_self v.samples.length v.blockSize
    omega
  have h := blockIter_closed_form v.samples v.blockSize hb
      (v.samples.length / v.blockSize) (v.samples.length + 1) 0 hq (Nat.zero_le _)
  rw [Nat.zero_mul] at h
  unfold BufferView.blocks BufferView.usable
  rw [h]
  simp

theorem chunks_flatten (l : List α) (block : Nat) (q : Nat) :
    ((List.range q).map (fun i => (l.drop (i * block)).take block)).flatten
      = l.take (q * block) := by
  induction q with
  | zero => simp
  | succ q ih =>
    rw [List.range_succ, List.map_append, List.flatten_append, ih]
    have hstep : (q + 1) * block = q * block + block := by ring
    rw [hstep, List.take_add]
    simp

/-! ### Claim C10: block iteration yields exactly the full blocks -/

/-- **C10**: for every buffer view over `n` samples with block size
`b > 0`, iterating `blocks()` yields exactly `n / b` blocks; block `i`
is exactly the `b` consecutive samples starting at offset `i * b`, in
order; their concatenation is the first `n − n % b` samples, so the
trailing `n % b` samples are never yielded and never reach the
analysis; a zero-length buffer yields no blocks and the per-view
processing produces no events. -/
theorem C10_block_iteration (v : BufferView ℚ) (f : List ℚ → Option Event)
    (hb : 0 < v.blockSize) :
    v.blocks = (List.range (v.samples.length / v.blockSize)).map
        (fun i => (v.samples.drop (i * v.blockSize)).take v.blockSize) ∧
    v.blocks.length = v.samples.length / v.blockSize ∧
    (∀ blk ∈ v.blocks, blk.length = v.blockSize) ∧
    v.blocks.flatten
      = v.samples.take (v.samples.length - v.samples.length % v.blockSize) ∧
    (v.samples = [] → v.blocks = [] ∧ processView f v = []) := by
  have hclosed := BufferView.blocks_eq v hb
  refine ⟨hclosed, ?_, ?_, ?_, ?_⟩
  · rw [hclosed]
    simp
  · rw [hclosed]
    intro blk hblk
    simp only [List.mem_map, List.mem_range] at hblk
    obtain ⟨i, hi, rfl⟩ := hblk
    rw [List.length_take, List.length_drop]
    have hmul : (i + 1) * v.blockSize ≤ v.samples.length / v.blockSize * v.blockSize :=
      Nat.mul_le_mul_right _ (by omega)
    have hle : v.samples.length / v.blockSize * v.blockSize ≤ v.samples.length :=
      Nat.div_mul_le_self _ _
    have hib : i * v.blockSize + v.blockSize ≤ v.samples.length := by
      have : (i + 1) * v.blockSize = i * v.blockSize + v.blockSize := by ring
      omega
    omega
  · rw [hclosed, chunks_flatten]
    have h := Nat.div_add_mod v.samples.length v.blockSize
    rw [Nat.mul_comm] at h
    rw [Nat.eq_sub_of_add_eq h]
  · intro hnil
    have hz : v.samples.length = 0 := by rw [hnil]; rfl
    constructor
    · rw [hclosed, hz]
      simp [Nat.zero_div]
    · unfold processView
      rw [hclosed, hz]
      simp [Nat.zero_div]

theorem C10_block_iteration_witness :
    (0 : Nat) < (BufferView.mk [1, 2, 3, 4, 5] 2 : BufferView ℚ).blockSize ∧
    (BufferView.mk [1, 2, 3, 4, 5] 2 : BufferView ℚ).blocks.length
      = ([1, 2, 3, 4, 5] : List ℚ).length / 2 :=
  ⟨by decide,
    (C10_block_iteration ⟨[1, 2, 3, 4, 5], 2⟩ (fun _ => none) (by decide)).2.1⟩

/-! ### Claim C7: per-block SPA buffer validation -/

/-- **C7 counterexample** — the claim states validation rejects a
zero-length buffer.  It does not: a non-null zero-byte buffer with the
expected stride and a non-zero block size passes every check and yields
an (empty) view; the `ZeroBlockSize` check is about the requested block
size, not the buffer length. -/
theorem C7_counterexample :
    makeBufferViewFromSpaMonoF32
        (some { dataMem := some [], chunk := some { size := 0, stride := 4 } }) 512
      = Except.ok { samples := [], blockSize := 512 } := rfl

/-- **C7** (amended): per-block validation rejects exactly the
malformed layouts the code checks — null data pointer, zero requested
block size, a stride other than `sizeof(float)`, and a byte length not
divisible by the sample size — returning a distinct labelled error for
each (zero-length buffers are accepted and yield an empty view); on
validation failure the block is skipped (no events), the labelled
rejection reason is logged, and the failure is never propagated as
fatal. -/
theorem C7_validation (b : Option SpaData) (block : Nat)
    (analysis : List ℚ → Option Event) :
    (makeBufferViewFromSpaMonoF32 b block = Except.error ViewError.NullData
      ↔ spaDataPtr b = none) ∧
    (makeBufferViewFromSpaMonoF32 b block = Except.error ViewError.ZeroBlockSize
      ↔ spaDataPtr b ≠ none ∧ block = 0) ∧
    (makeBufferViewFromSpaMonoF32 b block = Except.error ViewError.UnsupportedStride
      ↔ spaDataPtr b ≠ none ∧ block ≠ 0 ∧ spaStrideBytes b sizeofFloat ≠ sizeofFloat) ∧
    (makeBufferViewFromSpaMonoF32 b block = Except.error ViewError.MisalignedBytes
      ↔ spaDataPtr b ≠ none ∧ block ≠ 0 ∧ spaStrideBytes b sizeofFloat = sizeofFloat ∧
        spaSizeBytes b % sizeofFloat ≠ 0) ∧
    (∀ e1 e2 : ViewError, e1.label = e2.label → e1 = e2) ∧
    (∀ e, makeBufferViewFromSpaMonoF32 b block = Except.error e →
      processSpaBuffer analysis b block
        = { eventsProduced := [], rejectionLog := some e.label, fatal := false }) ∧
    (∀ v, makeBufferViewFromSpaMonoF32 b block = Except.ok v →
      processSpaBuffer analysis b block
        = { eventsProduced := processView analysis v, rejectionLog := none
          , fatal := false }) := by
  have hlabels : ∀ e1 e2 : ViewError, e1.label = e2.label → e1 = e2 := by
    intro e1 e2 h
    cases e1 <;> cases e2 <;> first | rfl | (exfalso; revert h; decide)
  have herr : ∀ e, makeBufferViewFromSpaMonoF32 b block = Except.error e →
      processSpaBuffer analysis b block
        = { eventsProduced := [], rejectionLog := some e.label, fatal := false } := by
    intro e he
    unfold processSpaBuffer
    rw [he]
  have hok : ∀ v, makeBufferViewFromSpaMonoF32 b block = Except.ok v →
      processSpaBuffer analysis b block
        = { eventsProduced := processView analysis v, rejectionLog := none
          , fatal := false } := by
    intro v hv
    unfold processSpaBuffer
    rw [hv]
  by_cases h1 : spaDataPtr b = none
  · have hres : makeBufferViewFromSpaMonoF32 b block = Except.error ViewError.NullData := by
      unfold makeBufferViewFromSpaMonoF32
      rw [if_pos h1]
    refine ⟨?_, ?_, ?_, ?_, hlabels, herr, hok⟩ <;> rw [hres] <;> simp [h1]
  · by_cases h2 : block = 0
    · have hres : makeBufferViewFromSpaMonoF32 b block
          = Except.error ViewError.ZeroBlockSize := by
        unfold makeBufferViewFromSpaMonoF32
        rw [if_neg h1, if_pos h2]
      refine ⟨?_, ?_, ?_, ?_, hlabels, herr, hok⟩ <;> rw [hres] <;> simp [h1, h2]
    · by_cases h3 : spaStrideBytes b sizeofFloat = sizeofFloat
      · by_cases h4 : spaSizeBytes b % sizeofFloat = 0
        · -- all checks pass: the view is built, no error possible
          cases hd : spaDataPtr b with
          | none => exact absurd hd h1
          | some mem =>
            have hres : makeBufferViewFromSpaMonoF32 b block
                = Except.ok { samples := mem.take (spaSizeBytes b / sizeofFloat)
                            , blockSize := block } := by
              unfold makeBufferViewFromSpaMonoF32
              rw [if_neg h1, if_neg h2, if_neg (fun hn => hn h3),
                if_neg (fun hn => hn h4), hd]
              unfold makeBufferViewFromBytes
              dsimp only
              rw [if_neg h2, if_neg (fun hn => hn h4)]
            refine ⟨?_, ?_, ?_, ?_, hlabels, herr, hok⟩ <;> rw [hres] <;>
              simp [h1, h2, h3, h4]
        · have hres : makeBufferViewFromSpaMonoF32 b block
              = Except.error ViewError.MisalignedBytes := by
            unfold makeBufferViewFromSpaMonoF32
            rw [if_neg h1, if_neg h2, if_neg (fun hn => hn h3), if_pos h4]
          refine ⟨?_, ?_, ?_, ?_, hlabels, herr, hok⟩ <;> rw [hres] <;>
            simp [h1, h2, h3, h4]
      · have hres : makeBufferViewFromSpaMonoF32 b block
            = Except.error ViewError.UnsupportedStride := by
          unfold makeBufferViewFromSpaMonoF32
          rw [if_neg h1, if_neg h2, if_pos h3]
        refine ⟨?_, ?_, ?_, ?_, hlabels, herr, hok⟩ <;> rw [hres] <;>
          simp [h1, h2, h3]

theorem C7_validation_witness :
    makeBufferViewFromSpaMonoF32 (none : Option SpaData) 512
        = Except.error ViewError.NullData ∧
    processSpaBuffer (fun _ => none) (none : Option SpaData) 512
      = { eventsProduced := [], rejectionLog := some ViewError.NullData.label
        , fatal := false } :=
  ⟨(C7_validation (none : Option SpaData) 512 (fun _ => none)).1.mpr rfl,
    (C7_validation (none : Option SpaData) 512 (fun _ => none)).2.2.2.2.2.1
      ViewError.NullData
      ((C7_validation (none : Option SpaData) 512 (fun _ => none)).1.mpr rfl)⟩

/-! ### Lemmas about the producer body and the drain/log loop -/

theorem drainLogLoop_zero (le lo : Bool) (ts : String) (ms : Nat) (s : Spsc Event) :
    drainLogLoop le lo ts ms 0 s = ([], s) := rfl

theorem drainLogLoop_succ (le lo : Bool) (ts : String) (ms : Nat) (fuel : Nat)
    (s : Spsc Event) :
    drainLogLoop le lo ts ms (fuel + 1) s =
      if s.ev_tail = s.ev_head then ([], s)
      else
        ((if le && lo && ((s.events s.ev_tail).is_beat || (s.events s.ev_tail).is_onset)
          then logLineFor ts ms (s.events s.ev_tail)
            :: (drainLogLoop le lo ts ms fuel
                 { s with ev_tail := (s.ev_tail + 1) % kEventCap }).1
          else (drainLogLoop le lo ts ms fuel
                 { s with ev_tail := (s.ev_tail + 1) % kEventCap }).1),
         (drainLogLoop le lo ts ms fuel
           { s with ev_tail := (s.ev_tail + 1) % kEventCap }).2) := by
  rw [drainLogLoop]

/-- The log loop is the plain drain loop with the logging branch
applied per event, in order. -/
theorem drainLogLoop_eq_filterMap (le lo : Bool) (ts : String) (ms : Nat)
    (fuel : Nat) (s : Spsc Event) :
    (drainLogLoop le lo ts ms fuel s).1
        = ((Spsc.drainLoop fuel s).1).filterMap (logFilter le lo ts ms) ∧
    (drainLogLoop le lo ts ms fuel s).2 = (Spsc.drainLoop fuel s).2 := by
  induction fuel generalizing s with
  | zero => exact ⟨rfl, rfl⟩
  | succ fuel ih =>
    rw [drainLogLoop_succ, Spsc.drainLoop_succ]
    by_cases h : s.ev_tail = s.ev_head
    · rw [if_pos h, if_pos h]
      exact ⟨rfl, rfl⟩
    · rw [if_neg h, if_neg h]
      obtain ⟨ih1, ih2⟩ := ih { s with ev_tail := (s.ev_tail + 1) % kEventCap }
      constructor
      · dsimp only
        rw [List.filterMap_cons]
        unfold logFilter
        by_cases hcond : (le && lo
            && ((s.events s.ev_tail).is_beat || (s.events s.ev_tail).is_onset)) = true
        · rw [if_pos hcond, if_pos hcond]
          dsimp only
          rw [ih1]
          rfl
        · rw [if_neg hcond, if_neg hcond]
          dsimp only
          rw [ih1]
          rfl
      · dsimp only
        exact ih2

theorem Spsc.pushAll_cons (s : Spsc α) (e : α) (l : List α) :
    s.pushAll (e :: l) = (s.tryPush e).pushAll l := rfl

theorem processDetection_queue (pe : Bool) (st : ProdState) (d : BlockDetect) :
    (processDetection pe st d).queue =
      if d.is_beat || d.is_onset
      then st.queue.tryPush
        { is_beat := d.is_beat, is_onset := d.is_onset
        , bpm := if d.is_beat then d.bpm_meas else st.last_bpm
        , pitch_hz := if pe then d.pitch_meas else 0, process_ms := 0 }
      else st.queue := by
  unfold processDetection
  cases hb2 : d.is_beat <;> cases ho : d.is_onset <;> simp

theorem processDetection_last_bpm (pe : Bool) (st : ProdState) (d : BlockDetect) :
    (processDetection pe st d).last_bpm
      = if d.is_beat then d.bpm_meas else st.last_bpm := by
  unfold processDetection
  cases hb2 : d.is_beat <;> cases ho : d.is_onset <;> simp

theorem producedEvents_cons (pe : Bool) (lb : ℚ) (d : BlockDetect)
    (rest : List BlockDetect) :
    producedEvents pe lb (d :: rest)
      = if d.is_beat || d.is_onset
        then { is_beat := d.is_beat, is_onset := d.is_onset
             , bpm := if d.is_beat then d.bpm_meas else lb
             , pitch_hz := if pe then d.pitch_meas else 0, process_ms := 0 }
          :: producedEvents pe (if d.is_beat then d.bpm_meas else lb) rest
        else producedEvents pe (if d.is_beat then d.bpm_meas else lb) rest := by
  rw [producedEvents]

/-- The queue after the producer has processed a detection sequence is
exactly the sequence of produced events pushed into the starting
queue. -/
theorem processDetections_queue (pe : Bool) (st : ProdState) (l : List BlockDetect) :
    (processDetections pe st l).queue
      = st.queue.pushAll (producedEvents pe st.last_bpm l) := by
  induction l generalizing st with
  | nil => rfl
  | cons d rest ih =>
    have hcons : processDetections pe st (d :: rest)
        = processDetections pe (processDetection pe st d) rest := rfl
    rw [hcons, ih, producedEvents_cons, processDetection_last_bpm]
    by_cases hprod : (d.is_beat || d.is_onset) = true
    · rw [if_pos hprod, Spsc.pushAll_cons, processDetection_queue, if_pos hprod]
    · rw [if_neg hprod, processDetection_queue, if_neg hprod]

theorem producedEvents_beat_or_onset (pe : Bool) (lb : ℚ) (l : List BlockDetect) :
    ∀ e ∈ producedEvents pe lb l, (e.is_beat || e.is_onset) = true := by
  induction l generalizing lb with
  | nil => intro e he; cases he
  | cons d rest ih =>
    intro e he
    rw [producedEvents_cons] at he
    by_cases hprod : (d.is_beat || d.is_onset) = true
    · rw [if_pos hprod] at he
      rcases List.mem_cons.mp he with rfl | hmem
      · exact hprod
      · exact ih _ e hmem
    · rw [if_neg hprod] at he
      exact ih _ e he

theorem producedEvents_pitch_disabled (lb : ℚ) (l : List BlockDetect) :
    ∀ e ∈ producedEvents false lb l, e.pitch_hz = 0 := by
  induction l generalizing lb with
  | nil => intro e he; cases he
  | cons d rest ih =>
    intro e he
    rw [producedEvents_cons] at he
    by_cases hprod : (d.is_beat || d.is_onset) = true
    · rw [if_pos hprod] at he
      rcases List.mem_cons.mp he with rfl | hmem
      · rfl
      · exact ih _ e hmem
    · rw [if_neg hprod] at he
      exact ih _ e he

theorem logFilter_on_map (ts : String) (ms : Nat) (l : List Event)
    (h : ∀ e ∈ l, (e.is_beat || e.is_onset) = true) :
    l.filterMap (logFilter true true ts ms) = l.map (logLineFor ts ms) := by
  induction l with
  | nil => rfl
  | cons e rest ih =>
    rw [List.filterMap_cons, List.map_cons]
    have he : (e.is_beat || e.is_onset) = true := h e (List.mem_cons_self e rest)
    have hsome : logFilter true true ts ms e = some (logLineFor ts ms e) := by
      unfold logFilter
      rw [if_pos (by simp [he])]
    rw [hsome]
    dsimp only
    rw [ih (fun x hx => h x (List.mem_cons_of_mem e hx))]

theorem dateLine_ne_header (d : String) :
    "# Beat Detection Log - " ++ d ≠ logHeaderLine := by
  intro h
  have h4 := congrArg (fun s => s.data.take 4) h
  simp only [String.data_append] at h4
  rw [List.take_append_of_le_length (by decide)] at h4
  revert h4
  decide

/-! ### Claim C8: log header and per-event log line format -/

/-- **C8**: when logging is enabled (log file open), exactly one line
written at log open equals the header
`"# Timestamp,BPM,Onset,Pitch(Hz),ProcessTime(ms)"`; the drain loop
writes one line per consumed event, every queued event is a beat or
onset, and each line carries, in order: the wall-clock timestamp with
millisecond precision (`ms mod 1000`), the BPM field (`0` if the event
is not a beat, even though the event record itself carries the stale
`last_bpm`), the onset flag as `1`/`0`, and the pitch in Hz (`0` when
pitch detection is disabled). -/
theorem C8_log_format (pe : Bool) (ts dateStamp : String) (nowMs : Nat)
    (dets : List BlockDetect)
    (hlen : (producedEvents pe 0 dets).length ≤ kEventCap - 1) :
    (logOpenLines dateStamp).count logHeaderLine = 1 ∧
    (drainLogAll true true ts nowMs
        (processDetections pe ProdState.init dets).queue).1
      = (producedEvents pe 0 dets).map (logLineFor ts nowMs) ∧
    (∀ e ∈ producedEvents pe 0 dets,
      (e.is_beat || e.is_onset) = true ∧
      logLineFor ts nowMs e
        = { timestamp := ts, millis := nowMs % 1000
          , bpmField := if e.is_beat then e.bpm else 0
          , onsetField := if e.is_onset then 1 else 0
          , pitchField := e.pitch_hz }) ∧
    (pe = false → ∀ e ∈ producedEvents pe 0 dets, e.pitch_hz = 0) := by
  refine ⟨?_, ?_, ?_, ?_⟩
  · unfold logOpenLines
    have hne : logHeaderLine ≠ "# Beat Detection Log - " ++ dateStamp :=
      fun h => dateLine_ne_header dateStamp h.symm
    simp [List.count_cons, hne]
  · have hq : (processDetections pe ProdState.init dets).queue
        = Spsc.pushAll (Spsc.empty
            { is_beat := false, is_onset := false, bpm := 0
            , pitch_hz := 0, process_ms := 0 })
          (producedEvents pe 0 dets) :=
      processDetections_queue pe ProdState.init dets
    obtain ⟨hh, ht, hp⟩ := Spsc.pushAll_empty_spec
      ({ is_beat := false, is_onset := false, bpm := 0
       , pitch_hz := 0, process_ms := 0 } : Event) (producedEvents pe 0 dets)
    have hb : (Spsc.pushAll (Spsc.empty
        { is_beat := false, is_onset := false, bpm := 0
        , pitch_hz := 0, process_ms := 0 }) (producedEvents pe 0 dets)).Bounded := by
      constructor
      · rw [hh]; exact Nat.mod_lt _ (by decide)
      · rw [ht]; exact Nat.mod_lt _ (by decide)
    have hdrop : (producedEvents pe 0 dets).length - (kEventCap - 1) = 0 := by omega
    rw [hdrop, List.drop_zero] at hp
    unfold drainLogAll
    obtain ⟨h1, -⟩ := drainLogLoop_eq_filterMap true true ts nowMs kEventCap
      ((processDetections pe ProdState.init dets).queue)
    rw [h1, hq]
    have hd := Spsc.drainLoop_eq kEventCap _ hb (Nat.le_of_lt (Spsc.pend_lt _))
    rw [hd]
    rw [hp]
    exact logFilter_on_map ts nowMs _ (producedEvents_beat_or_onset pe 0 dets)
  · intro e he
    exact ⟨producedEvents_beat_or_onset pe 0 dets e he, rfl⟩
  · intro hpe
    subst hpe
    exact producedEvents_pitch_disabled 0 dets

theorem C8_log_format_witness :
    (producedEvents false 0
        [{ is_beat := true, is_onset := false, bpm_meas := 120, pitch_meas := 0 }]).length
      ≤ kEventCap - 1 ∧
    (drainLogAll true true "t" 2345
        (processDetections false ProdState.init
          [{ is_beat := true, is_onset := false, bpm_meas := 120
           , pitch_meas := 0 }]).queue).1
      = (producedEvents false 0
          [{ is_beat := true, is_onset := false, bpm_meas := 120
           , pitch_meas := 0 }]).map (logLineFor "t" 2345) :=
  ⟨by decide,
    (C8_log_format false "t" "d" 2345
      [{ is_beat := true, is_onset := false, bpm_meas := 120, pitch_meas := 0 }]
      (by decide)).2.1⟩

/-! ### Lemmas about command-line parsing -/

theorem parseU32Loop_nondigit (l : List Char) :
    ∀ (acc : Nat) (c : Char), c ∈ l → c.isDigit = false →
      (parseU32Loop acc l).2.isSome = true := by
  induction l with
  | nil =>
    intro acc c hc hd
    cases hc
  | cons a rest ih =>
    intro acc c hc hd
    rw [parseU32Loop]
    dsimp only
    by_cases h1 : a.isDigit = true
    · rw [if_neg (fun hn => hn h1)]
      by_cases h2 : (acc > uint32Max / 10
          ∨ (acc = uint32Max / 10 ∧ a.toNat - 48 > uint32Max % 10))
      · rw [if_pos h2]
        rfl
      · rw [if_neg h2]
        rcases List.mem_cons.mp hc with rfl | hmem
        · rw [hd] at h1
          simp at h1
        · exact ih _ c hmem hd
    · rw [if_pos h1]
      rfl

theorem parseU32_nondigit (p : List Char) (c : Char) (hc : c ∈ p)
    (hd : c.isDigit = false) : (parseU32 p).2.isSome = true := by
  unfold parseU32
  split_ifs with h
  · rfl
  · exact parseU32Loop_nondigit p 0 c hc hd

/-- Accepted options always carry an in-range buffer size. -/
theorem parseArgsLoop_ok_range (l : List (List Char)) :
    ∀ (saw : Bool) (o res : Options),
      kMinBufferSize ≤ o.buffer_size → o.buffer_size ≤ kMaxBufferSize →
      parseArgsLoop saw o l = Except.ok res →
      kMinBufferSize ≤ res.buffer_size ∧ res.buffer_size ≤ kMaxBufferSize := by
  induction l with
  | nil =>
    intro saw o res h1 h2 h
    rw [parseArgsLoop] at h
    cases h
    exact ⟨h1, h2⟩
  | cons arg rest ih =>
    intro saw o res h1 h2 h
    rw [parseArgsLoop] at h
    split_ifs at h with hhelp hposi hsaw h4 h5 h6 h7
    -- first remaining goal: the positional argument branch
    · rcases hu : parseU32 arg with ⟨v, msg⟩
      rw [hu] at h
      cases msg with
      | some m => exact Except.noConfusion h
      | none =>
        dsimp only at h
        by_cases hrange : v < kMinBufferSize ∨ v > kMaxBufferSize
        · rw [if_pos hrange] at h
          exact Except.noConfusion h
        · rw [if_neg hrange] at h
          refine ih true _ res ?_ ?_ h <;>
            · dsimp only
              simp only [kMinBufferSize, kMaxBufferSize] at hrange ⊢
              omega
    -- remaining goals: the four flag branches, buffer size unchanged
    all_goals refine ih _ _ _ ?_ ?_ h <;> first | exact h1 | exact h2

/-- A single positional argument (non-empty, not starting with a dash)
routes through `parseU32` and the range check. -/
theorem parseArgs_positional (prog p : List Char) (hne : p ≠ [])
    (hh : p.head? ≠ some (Char.ofNat 45)) :
    parseArgs [prog, p]
      = (match parseU32 p with
        | (_, some _) =>
          Except.error
            { kind := ParseErrKind.Invalid
              message := "buffer_size must be a base-10 unsigned integer" }
        | (v, none) =>
          if v < kMinBufferSize ∨ v > kMaxBufferSize then
            Except.error
              { kind := ParseErrKind.Invalid
                message := "buffer_size out of range [64, 8192]" }
          else Except.ok { Options.default with buffer_size := v }) := by
  have h1 : ¬(p = "--help".data ∨ p = "-h".data) := by
    rintro (h | h) <;> exact hh (by rw [h]; decide)
  have h2 : p ≠ [] ∧ p.head? ≠ some (Char.ofNat 45) := ⟨hne, hh⟩
  show parseArgsLoop false Options.default [p] = _
  rw [parseArgsLoop]
  rw [if_neg h1, if_pos h2, if_neg (show ¬(false = true) by decide)]
  rcases hu : parseU32 p with ⟨v, msg⟩
  cases msg with
  | none =>
    dsimp only
    split_ifs with hr
    · rfl
    · rfl
  | some m => rfl

/-! ### Claim C9: configuration and exit codes -/

/-- **C9**: `buffer_size` defaults to 512 and is accepted only in the
range `[64, 8192]`: every accepted configuration has an in-range
buffer size, a non-numeric positional argument is a configuration
error, and an in-range check failure on a numeric positional argument
is a configuration error; the process exits with code 0 on a help
request and with code 1 on a configuration error or on an
initialization failure. -/
theorem C9_cli_config_exit (args : List (List Char)) (prog p : List Char)
    (o : Options) (e : ParseError) (init_ok run_threw : Bool) :
    parseArgs [prog] = Except.ok Options.default ∧
    Options.default.buffer_size = 512 ∧
    (parseArgs args = Except.ok o →
      kMinBufferSize ≤ o.buffer_size ∧ o.buffer_size ≤ kMaxBufferSize) ∧
    (p ≠ [] → p.head? ≠ some (Char.ofNat 45) →
      (∃ c ∈ p, c.isDigit = false) →
      ∃ msg, parseArgs [prog, p]
        = Except.error { kind := ParseErrKind.Invalid, message := msg }) ∧
    (∀ v : Nat, p ≠ [] → p.head? ≠ some (Char.ofNat 45) →
      parseU32 p = (v, none) → (v < kMinBufferSize ∨ v > kMaxBufferSize) →
      parseArgs [prog, p] = Except.error
        { kind := ParseErrKind.Invalid
          message := "buffer_size out of range [64, 8192]" }) ∧
    (parseArgs args = Except.error e → e.kind = ParseErrKind.Help →
      mainExitCode args init_ok run_threw = 0) ∧
    (parseArgs args = Except.error e → e.kind = ParseErrKind.Invalid →
      mainExitCode args init_ok run_threw = 1) ∧
    (parseArgs args = Except.ok o → init_ok = false →
      mainExitCode args init_ok run_threw = 1) := by
  refine ⟨rfl, rfl, ?_, ?_, ?_, ?_, ?_, ?_⟩
  · intro h
    exact parseArgsLoop_ok_range (args.drop 1) false Options.default o
      (by decide) (by decide) h
  · intro hne hh hcd
    obtain ⟨c, hc, hd⟩ := hcd
    have hsome := parseU32_nondigit p c hc hd
    rw [parseArgs_positional prog p hne hh]
    rcases hu : parseU32 p with ⟨v, msg⟩
    rw [hu] at hsome
    cases msg with
    | none => simp at hsome
    | some m => exact ⟨_, rfl⟩
  · intro v hne hh hu hrange
    rw [parseArgs_positional prog p hne hh, hu]
    try dsimp only
    rw [if_pos hrange]
  · intro hp hk
    unfold mainExitCode
    rw [hp]
    simp [hk]
  · intro hp hk
    unfold mainExitCode
    rw [hp]
    simp [hk]
  · intro hp hinit
    unfold mainExitCode
    rw [hp, hinit]
    simp

theorem C9_cli_config_exit_witness :
    parseArgs ["b".data, "--help".data]
        = Except.error { kind := ParseErrKind.Help, message := "" } ∧
    mainExitCode ["b".data, "--help".data] true false = 0 :=
  ⟨rfl,
    (C9_cli_config_exit ["b".data, "--help".data] "b".data "9".data Options.default
      { kind := ParseErrKind.Help, message := "" } true false).2.2.2.2.2.1 rfl rfl⟩

end BeatSpec
